import Mathlib

/-!
Verification of the rnet emulation-configuration core against its
natural-language specification.

The repository's Python layer consists of typed interface stubs
(src/python/rnet/header.py, emulation.py, _enums.py); the executable
implementation lives in the Rust extension, which is not part of the
Python tree.  The definitions below therefore embed the data model and
the operational contracts as documented by the stubs and the spec: each
definition whose behaviour is not decided by a Python source file
carries a doc comment starting with `Modelled from the spec:`.
-/

namespace Rnet

/-- HeaderEntry from the spec data model: a header name preserving its
original byte casing, and a value. -/
structure HeaderEntry where
  name : String
  value : String
deriving DecidableEq

/-- Case-folding of a header name, the key of the case-insensitive index
(ASCII-insensitive lowering, applied character by character). -/
def foldName (s : String) : String := ⟨s.data.map Char.toLower⟩

/-- Bool test: does entry `e` match query name `key` case-insensitively? -/
def nameMatches (key : String) (e : HeaderEntry) : Bool :=
  foldName e.name == foldName key

/-- OrderedHeaderMap: the ordered sequence of entries (the case-insensitive
index of the spec data model is recovered by filtering on `nameMatches`). -/
structure HeaderMap where
  entries : List HeaderEntry
deriving DecidableEq

namespace HeaderMap

/-- The empty header map. -/
def empty : HeaderMap := ⟨[]⟩

/-- Helper for `insert` on a map known to contain a match: drops every
matching entry except the last one, which is replaced in place by the new
entry. -/
def insertAux (key value : String) : List HeaderEntry → List HeaderEntry
  | [] => []
  | e :: es =>
    if nameMatches key e then
      if es.any (nameMatches key) then insertAux key value es
      else ⟨key, value⟩ :: es
    else e :: insertAux key value es

/-- Modelled from the spec: `insert(name, value)` removes all prior entries
for the case-insensitively-matched name and inserts one new entry at the
end-most position among the removed entries, or at the end of the sequence
if none existed; the literal byte-casing given is preserved.  (The Python
stub `HeaderMap.insert` documents only the replace-all contract; the
placement rule is taken from the spec's Header Ordering contract.) -/
def insert (m : HeaderMap) (key value : String) : HeaderMap :=
  if m.entries.any (nameMatches key) then ⟨insertAux key value m.entries⟩
  else ⟨m.entries ++ [⟨key, value⟩]⟩

/-- Modelled from the spec: `append(name, value)` always adds a new entry at
the end, never removing existing ones. -/
def append (m : HeaderMap) (key value : String) : HeaderMap :=
  ⟨m.entries ++ [⟨key, value⟩]⟩

/-- Modelled from the spec: `remove(name)` deletes all entries for that
name; no-op if absent. -/
def remove (m : HeaderMap) (key : String) : HeaderMap :=
  ⟨m.entries.filter (fun e => !(nameMatches key e))⟩

/-- Modelled from the spec: `get(name)` returns the first matching value or
none. -/
def get (m : HeaderMap) (key : String) : Option String :=
  (m.entries.find? (nameMatches key)).map HeaderEntry.value

/-- Modelled from the spec: `get_all(name)` returns the matching values in
insertion order. -/
def get_all (m : HeaderMap) (key : String) : List String :=
  (m.entries.filter (nameMatches key)).map HeaderEntry.value

/-- Modelled from the spec: `len()` counts entries (total number of header
values, not unique names). -/
def len (m : HeaderMap) : Nat := m.entries.length

/-- Modelled from the spec: the keys iterator yields each distinct
case-insensitive header name exactly once (case-folded form). -/
def keys (m : HeaderMap) : List String :=
  (m.entries.map (fun e => foldName e.name)).dedup

/-- Modelled from the spec: `keys_len()` counts distinct case-insensitive
names. -/
def keys_len (m : HeaderMap) : Nat := m.keys.length

/-- Modelled from the spec: `is_empty()` is true iff no entries are stored. -/
def is_empty (m : HeaderMap) : Bool := m.entries.isEmpty

/-- Modelled from the spec: `clear()` empties the sequence and the index. -/
def clear (_ : HeaderMap) : HeaderMap := ⟨[]⟩

/-- Modelled from the spec: `items()` yields one (name, value) pair per
entry in insertion order, duplicates included for multi-valued names. -/
def items (m : HeaderMap) : List (String × String) :=
  m.entries.map (fun e => (e.name, e.value))

end HeaderMap

/-- Modelled from the spec: the variant of `insert` described by the data
model section, which places the replacement entry at the position of the
first removed entry instead of the last. -/
def insertFirstAux (key value : String) : List HeaderEntry → List HeaderEntry
  | [] => []
  | e :: es =>
    if nameMatches key e then
      ⟨key, value⟩ :: es.filter (fun e2 => !(nameMatches key e2))
    else e :: insertFirstAux key value es

/-- Modelled from the spec: whole-map version of `insertFirstAux`, appending
at the end when no entry matches. -/
def insert_first (m : HeaderMap) (key value : String) : HeaderMap :=
  if m.entries.any (nameMatches key) then ⟨insertFirstAux key value m.entries⟩
  else ⟨m.entries ++ [⟨key, value⟩]⟩


/-- Operations on an OrderedHeaderMap, for stating properties of arbitrary
call sequences. -/
inductive HeaderOp
  | ins (key value : String)
  | app (key value : String)
  | rem (key : String)

/-- Apply one OrderedHeaderMap operation. -/
def applyOp (m : HeaderMap) : HeaderOp → HeaderMap
  | .ins k v => m.insert k v
  | .app k v => m.append k v
  | .rem k => m.remove k

/-- State reached from the empty OrderedHeaderMap by a sequence of
insert/append/remove calls. -/
def applyOps (ops : List HeaderOp) : HeaderMap :=
  ops.foldl applyOp HeaderMap.empty

/-- Modelled from the spec: header merge of the Emulation Resolver.  If
default_headers is disabled for a request the profile default map is not
applied at all; if enabled (default) the profile defaults are applied first,
in the profile's defined order, then explicit request headers are layered
using insert semantics. -/
def resolve_headers (profile_defaults : HeaderMap)
    (request_headers : List (String × String)) (default_headers : Bool) : HeaderMap :=
  let base := if default_headers then profile_defaults else HeaderMap.empty
  request_headers.foldl (fun m kv => m.insert kv.1 kv.2) base

/-- Modelled from the spec: wire-level header order under orig_headers.  The
explicitly named headers come first, in the caller-specified order and
casing, paired with their logical values; every logical header not named in
orig_headers is appended after them in internal default casing and order. -/
def wire_order (orig : List String) (logical : HeaderMap) : List (String × String) :=
  (orig.filterMap
      (fun n => (logical.entries.find? (nameMatches n)).map (fun e => (n, e.value))))
    ++ ((logical.entries.filter
          (fun e => !(orig.any (fun n => foldName n == foldName e.name)))).map
        (fun e => (e.name, e.value)))

/-- Modelled from the spec: three-level field merge, highest-precedence
explicitly set value wins (request over client over profile). -/
def mergeField {α : Type} (request client profile : Option α) : Option α :=
  (request.orElse (fun _ => client)).orElse (fun _ => profile)

/-- Modelled from the spec: full field resolution, falling through to the
transport default when no level explicitly set the field. -/
def resolveField {α : Type} (request client profile : Option α) (transport : α) : α :=
  (mergeField request client profile).getD transport

/-- HTTP/2 option overrides, every field explicitly optional; field set from
src/python/rnet/emulation.py (Http2OptionsParams), absence meaning inherit. -/
structure Http2OptionsParams where
  initial_window_size : Option Nat
  initial_connection_window_size : Option Nat
  max_frame_size : Option Nat
  max_header_list_size : Option Nat
  header_table_size : Option Nat
  max_concurrent_streams : Option Nat
  enable_push : Option Bool
  initial_stream_id : Option Nat
deriving DecidableEq

/-- Transport-level defaults for the HTTP/2 fields, the lowest precedence
level of the merge. -/
structure Http2TransportDefaults where
  initial_window_size : Nat
  initial_connection_window_size : Nat
  max_frame_size : Nat
  max_header_list_size : Nat
  header_table_size : Nat
  max_concurrent_streams : Nat
  enable_push : Bool
  initial_stream_id : Nat
deriving DecidableEq

/-- Effective HTTP/2 parameters after the merge, every field concrete. -/
structure EffectiveHttp2 where
  initial_window_size : Nat
  initial_connection_window_size : Nat
  max_frame_size : Nat
  max_header_list_size : Nat
  header_table_size : Nat
  max_concurrent_streams : Nat
  enable_push : Bool
  initial_stream_id : Nat
deriving DecidableEq

/-- Modelled from the spec: Emulation Resolver merge for the HTTP/2 record,
applied field-by-field (never record-by-record), precedence request over
client over profile over transport default. -/
def resolve_http2 (request client profile : Http2OptionsParams)
    (transport : Http2TransportDefaults) : EffectiveHttp2 :=
  ⟨resolveField request.initial_window_size client.initial_window_size
      profile.initial_window_size transport.initial_window_size,
    resolveField request.initial_connection_window_size
      client.initial_connection_window_size profile.initial_connection_window_size
      transport.initial_connection_window_size,
    resolveField request.max_frame_size client.max_frame_size
      profile.max_frame_size transport.max_frame_size,
    resolveField request.max_header_list_size client.max_header_list_size
      profile.max_header_list_size transport.max_header_list_size,
    resolveField request.header_table_size client.header_table_size
      profile.header_table_size transport.header_table_size,
    resolveField request.max_concurrent_streams client.max_concurrent_streams
      profile.max_concurrent_streams transport.max_concurrent_streams,
    resolveField request.enable_push client.enable_push
      profile.enable_push transport.enable_push,
    resolveField request.initial_stream_id client.initial_stream_id
      profile.initial_stream_id transport.initial_stream_id⟩

/-- TLS protocol versions, from src/python/rnet/_enums.py (class TlsVersion). -/
inductive TlsVersion
  | TLS_1_0
  | TLS_1_1
  | TLS_1_2
  | TLS_1_3
deriving DecidableEq

/-- Numeric rank of a TLS version, for comparing version bounds. -/
def TlsVersion.toNat : TlsVersion → Nat
  | .TLS_1_0 => 0
  | .TLS_1_1 => 1
  | .TLS_1_2 => 2
  | .TLS_1_3 => 3

/-- TLS option overrides, every field explicitly optional; field subset from
src/python/rnet/emulation.py (TlsOptionsParams), absence meaning inherit. -/
structure TlsOptionsParams where
  min_tls_version : Option TlsVersion
  max_tls_version : Option TlsVersion
  cipher_list : Option String
  curves_list : Option String
  sigalgs_list : Option String
deriving DecidableEq

/-- Errors of the emulation configuration core, from the spec error
taxonomy. -/
inductive EmulationError
  | UnknownProfile
  | ConflictingVersionBounds
deriving DecidableEq

/-- Effective TLS parameters after the merge; a still-unset field means the
transport engine default, and the vendor cipher/curve/sigalg strings are
passed through unvalidated. -/
structure EffectiveTls where
  min_tls_version : Option TlsVersion
  max_tls_version : Option TlsVersion
  cipher_list : Option String
  curves_list : Option String
  sigalgs_list : Option String
deriving DecidableEq

/-- Modelled from the spec: Emulation Resolver merge for the TLS record.
After the field-by-field merge the resolved version bounds are validated:
resolution fails with ConflictingVersionBounds when the resolved minimum
exceeds the resolved maximum, before any connection attempt. -/
def resolve_tls (request client profile : TlsOptionsParams) :
    Except EmulationError EffectiveTls :=
  let lo := mergeField request.min_tls_version client.min_tls_version
    profile.min_tls_version
  let hi := mergeField request.max_tls_version client.max_tls_version
    profile.max_tls_version
  let ciphers := mergeField request.cipher_list client.cipher_list profile.cipher_list
  let curves := mergeField request.curves_list client.curves_list profile.curves_list
  let sigalgs := mergeField request.sigalgs_list client.sigalgs_list profile.sigalgs_list
  match lo, hi with
  | some l, some h =>
    if h.toNat < l.toNat then Except.error EmulationError.ConflictingVersionBounds
    else Except.ok ⟨some l, some h, ciphers, curves, sigalgs⟩
  | lo, hi => Except.ok ⟨lo, hi, ciphers, curves, sigalgs⟩

/-- Impersonate profile keys, one per catalogued browser/client fingerprint,
from src/python/rnet/_enums.py (class Impersonate). -/
inductive Impersonate
  | Chrome100
  | Chrome101
  | Chrome104
  | Chrome105
  | Chrome106
  | Chrome107
  | Chrome108
  | Chrome109
  | Chrome110
  | Chrome114
  | Chrome116
  | Chrome117
  | Chrome118
  | Chrome119
  | Chrome120
  | Chrome123
  | Chrome124
  | Chrome126
  | Chrome127
  | Chrome128
  | Chrome129
  | Chrome130
  | Chrome131
  | Chrome132
  | Chrome133
  | Chrome134
  | Chrome135
  | Chrome136
  | Chrome137
  | Edge101
  | Edge122
  | Edge127
  | Edge131
  | Edge134
  | Firefox109
  | Firefox117
  | Firefox128
  | Firefox133
  | Firefox135
  | FirefoxPrivate135
  | FirefoxAndroid135
  | Firefox136
  | FirefoxPrivate136
  | Firefox139
  | SafariIos17_2
  | SafariIos17_4_1
  | SafariIos16_5
  | Safari15_3
  | Safari15_5
  | Safari15_6_1
  | Safari16
  | Safari16_5
  | Safari17_0
  | Safari17_2_1
  | Safari17_4_1
  | Safari17_5
  | Safari18
  | SafariIPad18
  | Safari18_2
  | Safari18_3
  | Safari18_3_1
  | SafariIos18_1_1
  | OkHttp3_9
  | OkHttp3_11
  | OkHttp3_13
  | OkHttp3_14
  | OkHttp4_9
  | OkHttp4_10
  | OkHttp4_12
  | OkHttp5
  | Opera116
  | Opera117
  | Opera118
  | Opera119
deriving DecidableEq

/-- String key of an Impersonate catalog entry (the Python enum member name). -/
def Impersonate.toKey : Impersonate → String
  | .Chrome100 => "Chrome100"
  | .Chrome101 => "Chrome101"
  | .Chrome104 => "Chrome104"
  | .Chrome105 => "Chrome105"
  | .Chrome106 => "Chrome106"
  | .Chrome107 => "Chrome107"
  | .Chrome108 => "Chrome108"
  | .Chrome109 => "Chrome109"
  | .Chrome110 => "Chrome110"
  | .Chrome114 => "Chrome114"
  | .Chrome116 => "Chrome116"
  | .Chrome117 => "Chrome117"
  | .Chrome118 => "Chrome118"
  | .Chrome119 => "Chrome119"
  | .Chrome120 => "Chrome120"
  | .Chrome123 => "Chrome123"
  | .Chrome124 => "Chrome124"
  | .Chrome126 => "Chrome126"
  | .Chrome127 => "Chrome127"
  | .Chrome128 => "Chrome128"
  | .Chrome129 => "Chrome129"
  | .Chrome130 => "Chrome130"
  | .Chrome131 => "Chrome131"
  | .Chrome132 => "Chrome132"
  | .Chrome133 => "Chrome133"
  | .Chrome134 => "Chrome134"
  | .Chrome135 => "Chrome135"
  | .Chrome136 => "Chrome136"
  | .Chrome137 => "Chrome137"
  | .Edge101 => "Edge101"
  | .Edge122 => "Edge122"
  | .Edge127 => "Edge127"
  | .Edge131 => "Edge131"
  | .Edge134 => "Edge134"
  | .Firefox109 => "Firefox109"
  | .Firefox117 => "Firefox117"
  | .Firefox128 => "Firefox128"
  | .Firefox133 => "Firefox133"
  | .Firefox135 => "Firefox135"
  | .FirefoxPrivate135 => "FirefoxPrivate135"
  | .FirefoxAndroid135 => "FirefoxAndroid135"
  | .Firefox136 => "Firefox136"
  | .FirefoxPrivate136 => "FirefoxPrivate136"
  | .Firefox139 => "Firefox139"
  | .SafariIos17_2 => "SafariIos17_2"
  | .SafariIos17_4_1 => "SafariIos17_4_1"
  | .SafariIos16_5 => "SafariIos16_5"
  | .Safari15_3 => "Safari15_3"
  | .Safari15_5 => "Safari15_5"
  | .Safari15_6_1 => "Safari15_6_1"
  | .Safari16 => "Safari16"
  | .Safari16_5 => "Safari16_5"
  | .Safari17_0 => "Safari17_0"
  | .Safari17_2_1 => "Safari17_2_1"
  | .Safari17_4_1 => "Safari17_4_1"
  | .Safari17_5 => "Safari17_5"
  | .Safari18 => "Safari18"
  | .SafariIPad18 => "SafariIPad18"
  | .Safari18_2 => "Safari18_2"
  | .Safari18_3 => "Safari18_3"
  | .Safari18_3_1 => "Safari18_3_1"
  | .SafariIos18_1_1 => "SafariIos18_1_1"
  | .OkHttp3_9 => "OkHttp3_9"
  | .OkHttp3_11 => "OkHttp3_11"
  | .OkHttp3_13 => "OkHttp3_13"
  | .OkHttp3_14 => "OkHttp3_14"
  | .OkHttp4_9 => "OkHttp4_9"
  | .OkHttp4_10 => "OkHttp4_10"
  | .OkHttp4_12 => "OkHttp4_12"
  | .OkHttp5 => "OkHttp5"
  | .Opera116 => "Opera116"
  | .Opera117 => "Opera117"
  | .Opera118 => "Opera118"
  | .Opera119 => "Opera119"

/-- Modelled from the spec: the fixed Profile Registry catalog, one entry per
Impersonate key (registry contents beyond the key are in the absent Rust
layer). -/
def allImpersonate : List Impersonate :=
  [
    .Chrome100,
    .Chrome101,
    .Chrome104,
    .Chrome105,
    .Chrome106,
    .Chrome107,
    .Chrome108,
    .Chrome109,
    .Chrome110,
    .Chrome114,
    .Chrome116,
    .Chrome117,
    .Chrome118,
    .Chrome119,
    .Chrome120,
    .Chrome123,
    .Chrome124,
    .Chrome126,
    .Chrome127,
    .Chrome128,
    .Chrome129,
    .Chrome130,
    .Chrome131,
    .Chrome132,
    .Chrome133,
    .Chrome134,
    .Chrome135,
    .Chrome136,
    .Chrome137,
    .Edge101,
    .Edge122,
    .Edge127,
    .Edge131,
    .Edge134,
    .Firefox109,
    .Firefox117,
    .Firefox128,
    .Firefox133,
    .Firefox135,
    .FirefoxPrivate135,
    .FirefoxAndroid135,
    .Firefox136,
    .FirefoxPrivate136,
    .Firefox139,
    .SafariIos17_2,
    .SafariIos17_4_1,
    .SafariIos16_5,
    .Safari15_3,
    .Safari15_5,
    .Safari15_6_1,
    .Safari16,
    .Safari16_5,
    .Safari17_0,
    .Safari17_2_1,
    .Safari17_4_1,
    .Safari17_5,
    .Safari18,
    .SafariIPad18,
    .Safari18_2,
    .Safari18_3,
    .Safari18_3_1,
    .SafariIos18_1_1,
    .OkHttp3_9,
    .OkHttp3_11,
    .OkHttp3_13,
    .OkHttp3_14,
    .OkHttp4_9,
    .OkHttp4_10,
    .OkHttp4_12,
    .OkHttp5,
    .Opera116,
    .Opera117,
    .Opera118,
    .Opera119
  ]

/-- Modelled from the spec: an EmulationProfile as returned by registry
lookup, identified by its stable catalog key (the protocol parameter bundle
itself lives in the absent Rust layer). -/
structure EmulationProfile where
  key : Impersonate
deriving DecidableEq

/-- Modelled from the spec: Profile Registry lookup by string key; fails with
UnknownProfile when the key is not catalogued, and never falls back to a
default profile. -/
def resolve_profile (key : String) : Except EmulationError EmulationProfile :=
  match allImpersonate.find? (fun i => Impersonate.toKey i == key) with
  | some i => Except.ok ⟨i⟩
  | none => Except.error EmulationError.UnknownProfile



/-! Helper lemmas about the Header Ordering Subsystem. -/

theorem any_of_mem_match {k : String} {l : List HeaderEntry} {e : HeaderEntry}
    (hmem : e ∈ l) (he : nameMatches k e = true) : l.any (nameMatches k) = true :=
  List.any_eq_true.mpr ⟨e, hmem, he⟩

theorem nameMatches_self (k v : String) : nameMatches k (⟨k, v⟩ : HeaderEntry) = true := by
  simp [nameMatches]

theorem nameMatches_congr {k k' : String} (h : foldName k = foldName k') :
    nameMatches k = nameMatches k' := by
  funext e
  simp [nameMatches, h]

theorem foldName_eq_of_match {k : String} {e : HeaderEntry}
    (h : nameMatches k e = true) : foldName e.name = foldName k := by
  simpa [nameMatches] using h

theorem insertAux_last (k v : String) (pre : List HeaderEntry) (e : HeaderEntry)
    (post : List HeaderEntry) (he : nameMatches k e = true)
    (hpost : ∀ e2 ∈ post, nameMatches k e2 = false) :
    HeaderMap.insertAux k v (pre ++ e :: post)
      = pre.filter (fun e2 => !(nameMatches k e2)) ++ ⟨k, v⟩ :: post := by
  induction pre with
  | nil =>
    have hany : post.any (nameMatches k) = false := by
      rw [List.any_eq_false]
      intro x hx
      simp [hpost x hx]
    simp [HeaderMap.insertAux, he, hany]
  | cons e1 pre ih =>
    by_cases h1 : nameMatches k e1 = true
    · have hany : (pre ++ e :: post).any (nameMatches k) = true :=
        any_of_mem_match (by simp) he
      simp [HeaderMap.insertAux, h1, hany, ih, List.filter]
    · have h1f : nameMatches k e1 = false := by
        cases hb : nameMatches k e1
        · rfl
        · exact absurd hb h1
      simp [HeaderMap.insertAux, h1f, ih, List.filter]

theorem filter_insertAux (k v : String) (l : List HeaderEntry)
    (h : l.any (nameMatches k) = true) :
    (HeaderMap.insertAux k v l).filter (nameMatches k) = [⟨k, v⟩] := by
  induction l with
  | nil => simp at h
  | cons e es ih =>
    by_cases h1 : nameMatches k e = true
    · cases hany : es.any (nameMatches k)
      · have hnil : es.filter (nameMatches k) = [] := by
          rw [List.filter_eq_nil_iff]
          intro x hx
          have := (List.any_eq_false.mp hany) x hx
          simpa using this
        simp [HeaderMap.insertAux, h1, hany, List.filter, nameMatches_self, hnil]
      · simp [HeaderMap.insertAux, h1, hany, ih hany]
    · have h1f : nameMatches k e = false := by
        cases hb : nameMatches k e
        · rfl
        · exact absurd hb h1
      have hany : es.any (nameMatches k) = true := by
        simp [h1f] at h
        exact List.any_eq_true.mpr h
      simp [HeaderMap.insertAux, h1f, List.filter, ih hany]

theorem length_insertAux (k v : String) (l : List HeaderEntry)
    (h : l.any (nameMatches k) = true) :
    (HeaderMap.insertAux k v l).length
      = l.length - (l.filter (nameMatches k)).length + 1 := by
  induction l with
  | nil => simp at h
  | cons e es ih =>
    by_cases h1 : nameMatches k e = true
    · cases hany : es.any (nameMatches k)
      · have hnil : es.filter (nameMatches k) = [] := by
          rw [List.filter_eq_nil_iff]
          intro x hx
          have := (List.any_eq_false.mp hany) x hx
          simpa using this
        simp [HeaderMap.insertAux, h1, hany, List.filter, hnil]
      · have hc : (es.filter (nameMatches k)).length ≤ es.length := List.length_filter_le _ _
        simp only [HeaderMap.insertAux, h1, hany, if_true, List.filter, List.length_cons]
        rw [ih hany]
        omega
    · have h1f : nameMatches k e = false := by
        cases hb : nameMatches k e
        · rfl
        · exact absurd hb h1
      have hany : es.any (nameMatches k) = true := by
        simp [h1f] at h
        exact List.any_eq_true.mpr h
      have hc : (es.filter (nameMatches k)).length ≤ es.length := List.length_filter_le _ _
      simp only [HeaderMap.insertAux, h1f, Bool.false_eq_true, if_false, List.filter,
        List.length_cons]
      rw [ih hany]
      omega

theorem find?_eq_head?_filter {α : Type} (p : α → Bool) (l : List α) :
    l.find? p = (l.filter p).head? := by
  induction l with
  | nil => rfl
  | cons a l ih =>
    cases ha : p a
    · rw [List.find?_cons_of_neg _ (by simp [ha]), List.filter_cons_of_neg (by simp [ha]), ih]
    · rw [List.find?_cons_of_pos _ ha, List.filter_cons_of_pos ha]
      rfl

theorem mem_foldMap_insertAux (k v : String) (l : List HeaderEntry)
    (h : l.any (nameMatches k) = true) (x : String) :
    x ∈ (HeaderMap.insertAux k v l).map (fun e => foldName e.name)
      ↔ x ∈ l.map (fun e => foldName e.name) := by
  induction l with
  | nil => simp at h
  | cons e es ih =>
    by_cases h1 : nameMatches k e = true
    · cases hany : es.any (nameMatches k)
      · simp only [HeaderMap.insertAux, h1, hany, if_true, Bool.false_eq_true, if_false]
        have he : foldName e.name = foldName k := foldName_eq_of_match h1
        simp [he]
      · simp only [HeaderMap.insertAux, h1, hany, if_true]
        rw [ih hany]
        constructor
        · intro hx
          simp [List.mem_cons]
          exact Or.inr (by simpa using hx)
        · intro hx
          rcases List.mem_cons.mp hx with hx | hx
          · obtain ⟨e2, he2, hm2⟩ := List.any_eq_true.mp hany
            have h2 : foldName e2.name = foldName k := foldName_eq_of_match hm2
            have he : foldName e.name = foldName k := foldName_eq_of_match h1
            have hx2 : x = foldName e2.name := by
              rw [hx]
              show foldName e.name = foldName e2.name
              rw [he, h2]
            rw [hx2]
            exact List.mem_map.mpr ⟨e2, he2, rfl⟩
          · exact hx
    · have h1f : nameMatches k e = false := by
        cases hb : nameMatches k e
        · rfl
        · exact absurd hb h1
      have hany : es.any (nameMatches k) = true := by
        simp [h1f] at h
        exact List.any_eq_true.mpr h
      simp only [HeaderMap.insertAux, h1f, Bool.false_eq_true, if_false, List.map_cons]
      rw [List.mem_cons, List.mem_cons, ih hany]

theorem filter_insert_self (m : HeaderMap) (k v : String) :
    (m.insert k v).entries.filter (nameMatches k) = [⟨k, v⟩] := by
  unfold HeaderMap.insert
  cases hany : m.entries.any (nameMatches k)
  · have hnil : m.entries.filter (nameMatches k) = [] := by
      rw [List.filter_eq_nil_iff]
      intro x hx
      simp [(List.any_eq_false.mp hany) x hx]
    simp [hany, List.filter_append, hnil, nameMatches_self]
  · simp only [hany, if_true]
    exact filter_insertAux k v m.entries hany

theorem get_insert_eq (m : HeaderMap) (k v k' : String) (h : foldName k' = foldName k) :
    (m.insert k v).get k' = some v := by
  unfold HeaderMap.get
  rw [find?_eq_head?_filter, nameMatches_congr h, filter_insert_self]
  rfl

theorem get_all_insert_eq (m : HeaderMap) (k v k' : String) (h : foldName k' = foldName k) :
    (m.insert k v).get_all k' = [v] := by
  unfold HeaderMap.get_all
  rw [nameMatches_congr h, filter_insert_self]
  rfl

theorem keys_len_insert_of_match (m : HeaderMap) (k v : String)
    (h : m.entries.any (nameMatches k) = true) :
    (m.insert k v).keys_len = m.keys_len := by
  unfold HeaderMap.keys_len HeaderMap.keys HeaderMap.insert
  simp only [h, if_true]
  rw [← List.card_toFinset, ← List.card_toFinset]
  congr 1
  ext x
  rw [List.mem_toFinset, List.mem_toFinset]
  exact mem_foldMap_insertAux k v m.entries h x

theorem length_filter_not {α : Type} (p : α → Bool) (l : List α) :
    (l.filter (fun a => !(p a))).length = l.length - (l.filter p).length := by
  induction l with
  | nil => rfl
  | cons a l ih =>
    have hle : (l.filter p).length ≤ l.length := List.length_filter_le _ _
    cases ha : p a
    · rw [List.filter_cons_of_pos (by simp [ha]), List.filter_cons_of_neg (by simp [ha])]
      simp only [List.length_cons]
      omega
    · rw [List.filter_cons_of_neg (by simp [ha]), List.filter_cons_of_pos (by simp [ha])]
      simp only [List.length_cons]
      omega

theorem len_insert (m : HeaderMap) (k v : String) :
    (m.insert k v).len = m.len - (m.get_all k).length + 1 := by
  unfold HeaderMap.len HeaderMap.insert HeaderMap.get_all
  cases hany : m.entries.any (nameMatches k)
  · have hnil : m.entries.filter (nameMatches k) = [] := by
      rw [List.filter_eq_nil_iff]
      intro x hx
      simp [(List.any_eq_false.mp hany) x hx]
    simp [hany, hnil]
  · simp only [hany, if_true, List.length_map]
    exact length_insertAux k v m.entries hany

theorem len_append_eq (m : HeaderMap) (k v : String) :
    (m.append k v).len = m.len + 1 := by
  simp [HeaderMap.append, HeaderMap.len]

theorem len_remove (m : HeaderMap) (k : String) :
    (m.remove k).len = m.len - (m.get_all k).length := by
  unfold HeaderMap.len HeaderMap.remove HeaderMap.get_all
  simp only [List.length_map]
  exact length_filter_not (nameMatches k) m.entries

theorem keys_len_le_len (m : HeaderMap) : m.keys_len ≤ m.len := by
  unfold HeaderMap.keys_len HeaderMap.keys HeaderMap.len
  calc ((m.entries.map (fun e => foldName e.name)).dedup).length
      ≤ (m.entries.map (fun e => foldName e.name)).length :=
        (List.dedup_sublist _).length_le
    _ = m.entries.length := List.length_map _ _

theorem mem_foldMap_iff_any (l : List HeaderEntry) (k : String) :
    foldName k ∈ l.map (fun e => foldName e.name) ↔ l.any (nameMatches k) = true := by
  rw [List.any_eq_true, List.mem_map]
  constructor
  · rintro ⟨e, he, hfold⟩
    exact ⟨e, he, by simp [nameMatches, hfold]⟩
  · rintro ⟨e, he, hm⟩
    exact ⟨e, he, (foldName_eq_of_match hm)⟩

theorem keys_len_append_eq (m : HeaderMap) (k v : String) :
    (m.append k v).keys_len
      = if m.entries.any (nameMatches k) then m.keys_len else m.keys_len + 1 := by
  unfold HeaderMap.keys_len HeaderMap.keys HeaderMap.append
  simp only [List.map_append, List.map_cons, List.map_nil]
  rw [← List.card_toFinset, ← List.card_toFinset, List.toFinset_append]
  cases hany : m.entries.any (nameMatches k)
  · have hnot : foldName k ∉ m.entries.map (fun e => foldName e.name) := by
      rw [mem_foldMap_iff_any, hany]
      simp
    simp only [Bool.false_eq_true, if_false]
    rw [show ([foldName k] : List String).toFinset = {foldName k} from rfl]
    rw [Finset.union_comm, ← Finset.insert_eq]
    rw [Finset.card_insert_of_not_mem (by simpa using hnot)]
  · have hmem : foldName k ∈ m.entries.map (fun e => foldName e.name) :=
      (mem_foldMap_iff_any _ _).mpr hany
    simp only [if_true]
    rw [show ([foldName k] : List String).toFinset = {foldName k} from rfl]
    rw [Finset.union_comm, ← Finset.insert_eq]
    rw [Finset.card_insert_of_mem (by simpa using hmem)]

theorem insert_eq_append_of_no_match (m : HeaderMap) (k v : String)
    (h : m.entries.any (nameMatches k) = false) :
    m.insert k v = m.append k v := by
  unfold HeaderMap.insert HeaderMap.append
  simp [h]

theorem keys_len_insert_eq (m : HeaderMap) (k v : String) :
    (m.insert k v).keys_len
      = if m.entries.any (nameMatches k) then m.keys_len else m.keys_len + 1 := by
  cases hany : m.entries.any (nameMatches k)
  · rw [insert_eq_append_of_no_match m k v hany, keys_len_append_eq, hany]
  · rw [keys_len_insert_of_match m k v hany]
    simp [hany]


theorem map_fst_filterMap_find? (orig : List String) (l : List HeaderEntry)
    (h : ∀ n ∈ orig, l.any (nameMatches n) = true) :
    (orig.filterMap
        (fun n => (l.find? (nameMatches n)).map (fun e => (n, e.value)))).map Prod.fst
      = orig := by
  induction orig with
  | nil => rfl
  | cons n rest ih =>
    have hn := h n (by simp)
    have hsome : (l.find? (nameMatches n)).isSome := by
      rw [List.find?_isSome]
      exact List.any_eq_true.mp hn
    obtain ⟨e, he⟩ := Option.isSome_iff_exists.mp hsome
    rw [List.filterMap_cons, he]
    simp only [Option.map_some', List.map_cons]
    rw [ih (fun x hx => h x (List.mem_cons_of_mem _ hx))]

/-- C2: insert removes all case-insensitive matches and places the single
replacement entry, with the given literal casing, at the end-most position
among the removed entries, or at the end of the sequence when no entry
matched; placing it instead at the position of the first removed entry (as
the data-model wording has it) yields a different map on a concrete input. -/
theorem c2_insert_end_most :
    (∀ (pre post : List HeaderEntry) (e : HeaderEntry) (k v : String),
        nameMatches k e = true →
        (∀ e2 ∈ post, nameMatches k e2 = false) →
        HeaderMap.insert ⟨pre ++ e :: post⟩ k v
          = ⟨pre.filter (fun e2 => !(nameMatches k e2)) ++ ⟨k, v⟩ :: post⟩)
    ∧ (∀ (m : HeaderMap) (k v : String),
        (∀ e ∈ m.entries, nameMatches k e = false) →
        m.insert k v = ⟨m.entries ++ [⟨k, v⟩]⟩)
    ∧ HeaderMap.insert ⟨[⟨"A", "1"⟩, ⟨"X", "2"⟩, ⟨"a", "3"⟩]⟩ "a" "9"
        = ⟨[⟨"X", "2"⟩, ⟨"a", "9"⟩]⟩
    ∧ insert_first ⟨[⟨"A", "1"⟩, ⟨"X", "2"⟩, ⟨"a", "3"⟩]⟩ "a" "9"
        = ⟨[⟨"a", "9"⟩, ⟨"X", "2"⟩]⟩
    ∧ HeaderMap.insert ⟨[⟨"A", "1"⟩, ⟨"X", "2"⟩, ⟨"a", "3"⟩]⟩ "a" "9"
        ≠ insert_first ⟨[⟨"A", "1"⟩, ⟨"X", "2"⟩, ⟨"a", "3"⟩]⟩ "a" "9" := by
  refine ⟨?_, ?_, by decide, by decide, by decide⟩
  · intro pre post e k v he hpost
    have hany : (pre ++ e :: post).any (nameMatches k) = true :=
      any_of_mem_match (by simp) he
    show HeaderMap.insert ⟨pre ++ e :: post⟩ k v = _
    unfold HeaderMap.insert
    simp only [hany, if_true]
    exact congrArg HeaderMap.mk (insertAux_last k v pre e post he hpost)
  · intro m k v h
    have hany : m.entries.any (nameMatches k) = false := by
      rw [List.any_eq_false]
      intro x hx
      simp [h x hx]
    unfold HeaderMap.insert
    simp [hany]

/-- C2 witness: the end-most placement rule applied at a concrete map where
the matched name occurs twice with different casings. -/
theorem c2_insert_end_most_witness :
    HeaderMap.insert ⟨[⟨"A", "1"⟩, ⟨"X", "2"⟩] ++ ⟨"a", "3"⟩ :: []⟩ "a" "9"
      = ⟨[⟨"A", "1"⟩, ⟨"X", "2"⟩].filter (fun e2 => !(nameMatches "a" e2))
          ++ ⟨"a", "9"⟩ :: []⟩ :=
  c2_insert_end_most.1 [⟨"A", "1"⟩, ⟨"X", "2"⟩] [] ⟨"a", "3"⟩ "a" "9"
    (by decide) (by decide)

/-- C5: with default headers enabled, profile defaults are applied first in
profile order and the explicit request header is layered with insert
semantics, replacing the value of the same-named default without changing
its position; on the spec example the resolved sequence is
User-Agent then Accept with the request value. -/
theorem c5_header_layering :
    (∀ (pre post : List HeaderEntry) (e : HeaderEntry) (k v : String),
        (∀ e2 ∈ pre, nameMatches k e2 = false) →
        nameMatches k e = true →
        (∀ e2 ∈ post, nameMatches k e2 = false) →
        resolve_headers ⟨pre ++ e :: post⟩ [(k, v)] true = ⟨pre ++ ⟨k, v⟩ :: post⟩)
    ∧ resolve_headers ⟨[⟨"User-Agent", "X"⟩, ⟨"Accept", "a"⟩]⟩ [("Accept", "b")] true
        = ⟨[⟨"User-Agent", "X"⟩, ⟨"Accept", "b"⟩]⟩ := by
  constructor
  · intro pre post e k v hpre he hpost
    unfold resolve_headers
    simp only [if_true, List.foldl_cons, List.foldl_nil]
    have hany : (pre ++ e :: post).any (nameMatches k) = true :=
      any_of_mem_match (by simp) he
    show HeaderMap.insert ⟨pre ++ e :: post⟩ k v = _
    unfold HeaderMap.insert
    simp only [hany, if_true]
    rw [insertAux_last k v pre e post he hpost]
    have hfix : pre.filter (fun e2 => !(nameMatches k e2)) = pre := by
      rw [List.filter_eq_self]
      intro a ha
      simp [hpre a ha]
    rw [hfix]
  · decide

/-- C5 witness: the layering rule applied to the spec example, profile
defaults User-Agent then Accept and request header Accept with a new value. -/
theorem c5_header_layering_witness :
    resolve_headers ⟨[⟨"User-Agent", "X"⟩] ++ ⟨"Accept", "a"⟩ :: []⟩ [("Accept", "b")] true
      = ⟨[⟨"User-Agent", "X"⟩] ++ ⟨"Accept", "b"⟩ :: []⟩ :=
  c5_header_layering.1 [⟨"User-Agent", "X"⟩] [] ⟨"Accept", "a"⟩ "Accept" "b"
    (by decide) (by decide) (by decide)

/-- C7: over every sequence of insert/append/remove calls from the empty
OrderedHeaderMap, len follows the surviving-entry bookkeeping (insert
replaces the matching entries by one, append adds one, remove deletes the
matching entries), keys_len counts distinct case-folded names (insert and
append add a name only when it is new), and keys_len never exceeds len in a
reachable state. -/
theorem c7_len_keys_len_invariant :
    (∀ (m : HeaderMap) (k v : String),
        (m.insert k v).len = m.len - (m.get_all k).length + 1)
    ∧ (∀ (m : HeaderMap) (k v : String), (m.append k v).len = m.len + 1)
    ∧ (∀ (m : HeaderMap) (k : String),
        (m.remove k).len = m.len - (m.get_all k).length)
    ∧ (∀ (m : HeaderMap) (k v : String),
        (m.insert k v).keys_len
          = if m.entries.any (nameMatches k) then m.keys_len else m.keys_len + 1)
    ∧ (∀ (m : HeaderMap) (k v : String),
        (m.append k v).keys_len
          = if m.entries.any (nameMatches k) then m.keys_len else m.keys_len + 1)
    ∧ (∀ ops : List HeaderOp, (applyOps ops).keys_len ≤ (applyOps ops).len) :=
  ⟨len_insert, len_append_eq, len_remove, keys_len_insert_eq, keys_len_append_eq,
    fun ops => keys_len_le_len (applyOps ops)⟩

/-- C8: after inserting Accept with one value and then accept with a second,
lookup under yet another casing returns the second value, get_all returns
exactly that one entry, and the two casings count as a single logical header
for keys_len. -/
theorem c8_case_insensitive_round_trip (m : HeaderMap) (v1 v2 : String) :
    ((m.insert "Accept" v1).insert "accept" v2).get "ACCEPT" = some v2
    ∧ ((m.insert "Accept" v1).insert "accept" v2).get_all "ACCEPT" = [v2]
    ∧ ((m.insert "Accept" v1).insert "accept" v2).keys_len
        = (m.insert "Accept" v1).keys_len := by
  have hfold : foldName "ACCEPT" = foldName "accept" := by decide
  refine ⟨get_insert_eq _ _ _ _ hfold, get_all_insert_eq _ _ _ _ hfold, ?_⟩
  have hf := filter_insert_self m "Accept" v1
  have hmem : (⟨"Accept", v1⟩ : HeaderEntry) ∈ (m.insert "Accept" v1).entries := by
    refine List.mem_of_mem_filter (p := nameMatches "Accept") ?_
    rw [hf]
    simp
  have hany : (m.insert "Accept" v1).entries.any (nameMatches "accept") = true :=
    any_of_mem_match hmem rfl
  exact keys_len_insert_of_match _ _ _ hany

/-- C10: the keys iterator yields each distinct case-folded name exactly
once (its length is keys_len and every present name has count one), while
items yields one pair per stored entry (its length is len). -/
theorem c10_keys_iter_vs_items (m : HeaderMap) :
    m.keys.length = m.keys_len
    ∧ m.items.length = m.len
    ∧ m.keys.Nodup
    ∧ (∀ k : String,
        m.keys.count (foldName k)
          = if m.entries.any (nameMatches k) then 1 else 0) := by
  refine ⟨rfl, by simp [HeaderMap.items, HeaderMap.len], List.nodup_dedup _, ?_⟩
  intro k
  cases hany : m.entries.any (nameMatches k)
  · have hnot : foldName k ∉ m.keys := by
      unfold HeaderMap.keys
      rw [List.mem_dedup, mem_foldMap_iff_any, hany]
      simp
    simp [List.count_eq_zero_of_not_mem hnot]
  · have hm : foldName k ∈ m.keys := by
      unfold HeaderMap.keys
      rw [List.mem_dedup, mem_foldMap_iff_any]
      exact hany
    have hone : m.keys.count (foldName k) = 1 :=
      List.count_eq_one_of_mem (List.nodup_dedup _) hm
    simp [hone]

/-- C1: field resolution follows request over client over profile over
transport default, field-by-field: an explicitly set field at a level wins,
and a field falls through exactly when unset; on the spec example a profile
default max_concurrent_streams of 100 with request override 50 resolves to
50, and with no request override to the client value if set, else 100, while
every other field of the record merges independently. -/
theorem c1_merge_precedence :
    (∀ (α : Type) (x : α) (c p : Option α) (d : α), resolveField (some x) c p d = x)
    ∧ (∀ (α : Type) (y : α) (p : Option α) (d : α), resolveField none (some y) p d = y)
    ∧ (∀ (α : Type) (z : α) (d : α), resolveField none none (some z) d = z)
    ∧ (∀ (α : Type) (d : α), resolveField (none : Option α) none none d = d)
    ∧ (∀ (req cli prof : Http2OptionsParams) (t : Http2TransportDefaults),
        (resolve_http2 req cli prof t).max_concurrent_streams
          = resolveField req.max_concurrent_streams cli.max_concurrent_streams
              prof.max_concurrent_streams t.max_concurrent_streams)
    ∧ (∀ (req cli prof : Http2OptionsParams) (t : Http2TransportDefaults),
        req.max_concurrent_streams = some 50 →
        prof.max_concurrent_streams = some 100 →
        (resolve_http2 req cli prof t).max_concurrent_streams = 50)
    ∧ (∀ (req cli prof : Http2OptionsParams) (t : Http2TransportDefaults),
        req.max_concurrent_streams = none →
        prof.max_concurrent_streams = some 100 →
        (resolve_http2 req cli prof t).max_concurrent_streams
          = cli.max_concurrent_streams.getD 100)
    ∧ resolve_http2
        ⟨none, none, none, none, none, some 50, none, none⟩
        ⟨none, none, none, none, none, none, none, none⟩
        ⟨some 6291456, none, none, none, none, some 100, some false, none⟩
        ⟨65535, 1048576, 16384, 262144, 4096, 250, true, 1⟩
        = ⟨6291456, 1048576, 16384, 262144, 4096, 50, false, 1⟩ := by
  refine ⟨?_, ?_, ?_, ?_, ?_, ?_, ?_, by decide⟩
  · intro α x c p d
    rfl
  · intro α y p d
    rfl
  · intro α z d
    rfl
  · intro α d
    rfl
  · intro req cli prof t
    rfl
  · intro req cli prof t hreq hprof
    show resolveField req.max_concurrent_streams cli.max_concurrent_streams
        prof.max_concurrent_streams t.max_concurrent_streams = 50
    rw [hreq]
    rfl
  · intro req cli prof t hreq hprof
    show resolveField req.max_concurrent_streams cli.max_concurrent_streams
        prof.max_concurrent_streams t.max_concurrent_streams
      = cli.max_concurrent_streams.getD 100
    rw [hreq, hprof]
    cases cli.max_concurrent_streams
    · rfl
    · rfl

/-- C1 witness: the spec example instantiated concretely, request override
50 over a profile default of 100, and fall-through to the client level when
the request leaves the field unset. -/
theorem c1_merge_precedence_witness :
    (resolve_http2
        ⟨none, none, none, none, none, some 50, none, none⟩
        ⟨none, none, none, none, none, none, none, none⟩
        ⟨none, none, none, none, none, some 100, none, none⟩
        ⟨65535, 1048576, 16384, 262144, 4096, 250, true, 1⟩).max_concurrent_streams = 50
    ∧ (resolve_http2
        ⟨none, none, none, none, none, none, none, none⟩
        ⟨none, none, none, none, none, some 75, none, none⟩
        ⟨none, none, none, none, none, some 100, none, none⟩
        ⟨65535, 1048576, 16384, 262144, 4096, 250, true, 1⟩).max_concurrent_streams
      = (some 75 : Option Nat).getD 100
    ∧ (resolve_http2
        ⟨none, none, none, none, none, none, none, none⟩
        ⟨none, none, none, none, none, none, none, none⟩
        ⟨none, none, none, none, none, some 100, none, none⟩
        ⟨65535, 1048576, 16384, 262144, 4096, 250, true, 1⟩).max_concurrent_streams
      = (none : Option Nat).getD 100 :=
  ⟨c1_merge_precedence.2.2.2.2.2.1 _ _ _ _ rfl rfl,
    c1_merge_precedence.2.2.2.2.2.2.1 _ _ _ _ rfl rfl,
    c1_merge_precedence.2.2.2.2.2.2.1 _ _ _ _ rfl rfl⟩

/-- C3: whenever the merged minimum TLS version exceeds the merged maximum,
TLS resolution fails with ConflictingVersionBounds at configuration time. -/
theorem c3_conflicting_version_bounds
    (req cli prof : TlsOptionsParams) (l h : TlsVersion)
    (hlo : mergeField req.min_tls_version cli.min_tls_version prof.min_tls_version
        = some l)
    (hhi : mergeField req.max_tls_version cli.max_tls_version prof.max_tls_version
        = some h)
    (hlt : h.toNat < l.toNat) :
    resolve_tls req cli prof = Except.error EmulationError.ConflictingVersionBounds := by
  unfold resolve_tls
  rw [hlo, hhi]
  simp [hlt]

/-- C3 witness: merging request minimum TLS 1.3 with request maximum TLS 1.2
fails with ConflictingVersionBounds. -/
theorem c3_conflicting_version_bounds_witness :
    resolve_tls
        ⟨some TlsVersion.TLS_1_3, some TlsVersion.TLS_1_2, none, none, none⟩
        ⟨none, none, none, none, none⟩
        ⟨none, none, none, none, none⟩
      = Except.error EmulationError.ConflictingVersionBounds :=
  c3_conflicting_version_bounds _ _ _ TlsVersion.TLS_1_3 TlsVersion.TLS_1_2
    rfl rfl (by decide)

/-- C4: profile lookup by key fails with UnknownProfile for every key not in
the catalog and never falls back to a default, and returns the looked-up
key's own profile for every catalogued key. -/
theorem c4_unknown_profile :
    (∀ key : String,
        (allImpersonate.all (fun i => !(Impersonate.toKey i == key))) = true →
        resolve_profile key = Except.error EmulationError.UnknownProfile)
    ∧ (∀ i : Impersonate, resolve_profile (Impersonate.toKey i) = Except.ok ⟨i⟩) := by
  constructor
  · intro key hall
    unfold resolve_profile
    have hnone : allImpersonate.find? (fun i => Impersonate.toKey i == key) = none := by
      rw [List.find?_eq_none]
      intro x hx
      have hnb := (List.all_eq_true.mp hall) x hx
      simp at hnb
      simp [hnb]
    rw [hnone]
  · intro i
    cases i <;> rfl

/-- C4 witness: the uncatalogued key NotARealBrowser fails with
UnknownProfile, and the catalogued key Chrome131 resolves to its own
profile. -/
theorem c4_unknown_profile_witness :
    resolve_profile "NotARealBrowser" = Except.error EmulationError.UnknownProfile
    ∧ resolve_profile (Impersonate.toKey Impersonate.Chrome131)
        = Except.ok ⟨Impersonate.Chrome131⟩ :=
  ⟨c4_unknown_profile.1 "NotARealBrowser" (by decide),
    c4_unknown_profile.2 Impersonate.Chrome131⟩

/-- C6: with orig_headers provided, the wire-level sequence lists the
explicitly named headers first in the caller-given order and casing, and
every logical header not named falls back after them in internal order; on
the spec example the wire order is Cookie, User-Agent, Accept. -/
theorem c6_orig_headers_wire_order :
    (∀ (orig : List String) (logical : HeaderMap),
        (∀ n ∈ orig, logical.entries.any (nameMatches n) = true) →
        (wire_order orig logical).map Prod.fst
          = orig ++ ((logical.entries.filter
                (fun e => !(orig.any (fun n2 => foldName n2 == foldName e.name)))).map
              (fun e => e.name)))
    ∧ wire_order ["Cookie", "User-Agent"]
        ⟨[⟨"User-Agent", "u"⟩, ⟨"Cookie", "c"⟩, ⟨"Accept", "a"⟩]⟩
        = [("Cookie", "c"), ("User-Agent", "u"), ("Accept", "a")] := by
  constructor
  · intro orig logical h
    unfold wire_order
    rw [List.map_append, map_fst_filterMap_find? orig logical.entries h, List.map_map]
    rfl
  · decide

/-- C6 witness: the wire ordering rule applied to the spec example with
orig_headers Cookie then User-Agent over three logical headers. -/
theorem c6_orig_headers_wire_order_witness :
    (wire_order ["Cookie", "User-Agent"]
        ⟨[⟨"User-Agent", "u"⟩, ⟨"Cookie", "c"⟩, ⟨"Accept", "a"⟩]⟩).map Prod.fst
      = ["Cookie", "User-Agent"]
        ++ (([⟨"User-Agent", "u"⟩, ⟨"Cookie", "c"⟩, ⟨"Accept", "a"⟩] :
              List HeaderEntry).filter
            (fun e => !(["Cookie", "User-Agent"].any
                (fun n2 => foldName n2 == foldName e.name)))).map
          (fun e => e.name) :=
  c6_orig_headers_wire_order.1 ["Cookie", "User-Agent"]
    ⟨[⟨"User-Agent", "u"⟩, ⟨"Cookie", "c"⟩, ⟨"Accept", "a"⟩]⟩ (by decide)

end Rnet
